import Mathlib

/-! RideShare: fares, drivers and riders.

A shallow embedding of `src/RideShare.cpp`.

* `double` is modelled by `F64`, the IEEE-754 binary64 values with
  round-to-nearest-even arithmetic (no real-number idealisation).
* Ride objects live in a `Heap`; a `Ride*` is an address into it, and a call
  through a pointer that addresses no object has no result (`none`).
* Text written to `std::cout` is the list of inserted items, manipulators
  included, so no number formatting is modelled.
-/

namespace RideShare

/-! ## binary64 arithmetic -/

/-- A binary64 value.  `fin neg m e` denotes `(-1)^neg * m * 2^e * 2^(-1074)`;
the values a `double` can hold are `nan`, `inf neg` and the `fin neg m e` with
`m < 2^53`, `e ≤ 2045` and (`e = 0` or `2^52 ≤ m`). -/
inductive F64 where
  | nan : F64
  | inf (neg : Bool) : F64
  | fin (neg : Bool) (m : Nat) (e : Nat) : F64
  deriving DecidableEq

namespace F64

/-- The least `e` (capped at 4095) with `n / 2^e < 2^53`, found bit by bit. -/
def excess (n : Nat) : Nat :=
  [2048, 1024, 512, 256, 128, 64, 32, 16, 8, 4, 2, 1].foldl
    (fun a k => if 2 ^ 53 ≤ n >>> (a + k - 1) then a + k else a) 0

/-- The binary64 value nearest to `(-1)^neg * p / q`, ties to the even
significand, overflow to infinity (`q` is positive at every call). -/
def round (neg : Bool) (p q : Nat) : F64 :=
  let P := p <<< 1074
  let e := excess (P / q)
  let d := q <<< e
  let n := P / d
  let r := P % d
  let m := if 2 * r < d then n else if d < 2 * r then n + 1 else if n % 2 = 0 then n else n + 1
  if m = 2 ^ 53 then
    (if 2045 < e + 1 then inf neg else fin neg (2 ^ 52) (e + 1))
  else if 2045 < e then inf neg else fin neg m e

/-- The signed integer `(-1)^neg * m * 2^e`, the value in units of `2^(-1074)`. -/
def scaled : Bool → Nat → Nat → Int
  | false, m, e => ((m <<< e : Nat) : Int)
  | true, m, e => -((m <<< e : Nat) : Int)

/-- Multiplication of doubles, `a * b`. -/
def mul : F64 → F64 → F64
  | nan, _ => nan
  | _, nan => nan
  | inf s, inf t => inf (xor s t)
  | inf s, fin t m _ => if m = 0 then nan else inf (xor s t)
  | fin s m _, inf t => if m = 0 then nan else inf (xor s t)
  | fin s m e, fin t n f => round (xor s t) ((m <<< e) * (n <<< f)) (1 <<< 2148)

/-- Addition of doubles, `a + b`. -/
def add : F64 → F64 → F64
  | nan, _ => nan
  | _, nan => nan
  | inf s, inf t => if s = t then inf s else nan
  | inf s, fin _ _ _ => inf s
  | fin _ _ _, inf t => inf t
  | fin s m e, fin t n f =>
    let x := scaled s m e + scaled t n f
    if x = 0 then fin (s && t) 0 0 else round (decide (x < 0)) x.natAbs (1 <<< 1074)

/-- Comparison of doubles, `a < b` (false when either side is a NaN). -/
def lt : F64 → F64 → Bool
  | nan, _ => false
  | _, nan => false
  | inf s, inf t => s && !t
  | inf s, fin _ _ _ => s
  | fin _ _ _, inf t => !t
  | fin s m e, fin t n f => decide (scaled s m e < scaled t n f)

/-- Comparison of doubles, `a <= b` (false when either side is a NaN). -/
def le : F64 → F64 → Bool
  | nan, _ => false
  | _, nan => false
  | inf s, inf t => s || !t
  | inf s, fin _ _ _ => s
  | fin _ _ _, inf t => !t
  | fin s m e, fin t n f => decide (scaled s m e ≤ scaled t n f)

/-- Comparison of doubles, `a == b` (false when either side is a NaN; the two
zeros are equal). -/
def eq : F64 → F64 → Bool
  | nan, _ => false
  | _, nan => false
  | inf s, inf t => s == t
  | inf _, fin _ _ _ => false
  | fin _ _ _, inf _ => false
  | fin s m e, fin t n f => decide (scaled s m e = scaled t n f)

/-- The library function `std::max(a, b)`, which is `(a < b) ? b : a`. -/
def max (a b : F64) : F64 := if lt a b then b else a

/-- The double a decimal literal denotes: the nearest to `digits / 10^scale`
(`1.50` is `ofDecimal 150 2`). -/
def ofDecimal (digits scale : Nat) : F64 := round false digits (10 ^ scale)

end F64

/-! ## Output -/

/-- One insertion into `std::cout`. -/
inductive Item where
  | text (s : String) : Item
  | real (x : F64) : Item
  | size (n : Nat) : Item
  | fixed : Item
  | setprecision (n : Nat) : Item
  | endl : Item
  deriving DecidableEq

/-! ## Rides (lines 7-71) -/

/-- The dynamic type of a ride object; `Ride` itself is abstract. -/
inductive Variant where
  | Standard : Variant
  | Premium : Variant
  deriving DecidableEq

/-- The data members of `class Ride`, with the dynamic type of the object. -/
structure Ride where
  variant : Variant
  rideID : String
  pickupLocation : String
  dropoffLocation : String
  distance : F64
  fare : F64
  deriving DecidableEq

/-- The base constructor `Ride::Ride` (lines 16-17), which sets `fare(0.0)`. -/
def Ride.new (v : Variant) (id pickup dropoff : String) (dist : F64) : Ride :=
  { variant := v, rideID := id, pickupLocation := pickup, dropoffLocation := dropoff,
    distance := dist, fare := F64.ofDecimal 0 1 }

/-- The accessor `Ride::getFare` (line 31). -/
def Ride.getFare (r : Ride) : F64 := r.fare

/-- The accessor `Ride::getID` (line 32). -/
def Ride.getID (r : Ride) : String := r.rideID

/-- The base report `Ride::rideDetails` (lines 23-29). -/
def Ride.rideDetails (r : Ride) : List Item :=
  [.text "  Ride ID: ", .text r.rideID, .text "\n",
   .text "  From: ", .text r.pickupLocation, .text "\n",
   .text "  To: ", .text r.dropoffLocation, .text "\n",
   .text "  Distance: ", .real r.distance, .text " miles\n",
   .text "  Fare: $", .fixed, .setprecision 2, .real r.fare, .text "\n"]

/-- The constant `StandardRide::RATE_PER_MILE = 1.50` (line 37). -/
def StandardRide.RATE_PER_MILE : F64 := F64.ofDecimal 150 2

/-- The constructor `StandardRide::StandardRide` (lines 40-41). -/
def StandardRide.new (id pickup dropoff : String) (dist : F64) : Ride :=
  Ride.new .Standard id pickup dropoff dist

/-- The method `StandardRide::calculateFare` (lines 43-45). -/
def StandardRide.calculateFare (r : Ride) : Ride :=
  { r with fare := F64.mul r.distance StandardRide.RATE_PER_MILE }

/-- The method `StandardRide::rideDetails` (lines 47-50). -/
def StandardRide.rideDetails (r : Ride) : List Item :=
  [.text "--- Standard Ride ---\n"] ++ Ride.rideDetails r

/-- The constant `PremiumRide::RATE_PER_MILE = 3.00` (line 55). -/
def PremiumRide.RATE_PER_MILE : F64 := F64.ofDecimal 300 2

/-- The constant `PremiumRide::MINIMUM_FARE = 10.0` (line 56). -/
def PremiumRide.MINIMUM_FARE : F64 := F64.ofDecimal 100 1

/-- The constructor `PremiumRide::PremiumRide` (lines 59-60). -/
def PremiumRide.new (id pickup dropoff : String) (dist : F64) : Ride :=
  Ride.new .Premium id pickup dropoff dist

/-- The method `PremiumRide::calculateFare` (lines 62-64). -/
def PremiumRide.calculateFare (r : Ride) : Ride :=
  { r with fare := F64.max (F64.mul r.distance PremiumRide.RATE_PER_MILE)
                     PremiumRide.MINIMUM_FARE }

/-- The method `PremiumRide::rideDetails` (lines 66-70). -/
def PremiumRide.rideDetails (r : Ride) : List Item :=
  [.text "--- Premium Ride ---\n"] ++ Ride.rideDetails r
    ++ [.text "  (Includes premium service)\n"]

/-- The virtual call `calculateFare()` (line 21), dispatched on the dynamic type. -/
def Ride.calculateFare (r : Ride) : Ride :=
  match r.variant with
  | .Standard => StandardRide.calculateFare r
  | .Premium => PremiumRide.calculateFare r

/-- The report by the `rideDetails()` of the ride's own class (lines 47-50 and
66-70): what a call on an object of static type `StandardRide` or `PremiumRide`
runs. -/
def Ride.rideDetailsOwn (r : Ride) : List Item :=
  match r.variant with
  | .Standard => StandardRide.rideDetails r
  | .Premium => PremiumRide.rideDetails r

/-! ## Objects and pointers -/

/-- A `Ride*`: the address of a ride object. -/
abbrev Ptr := Nat

/-- The ride objects alive, by address. -/
abbrev Heap := List Ride

/-- The call `ride->calculateFare()` through a pointer. -/
def Heap.calculateFare (h : Heap) (ride : Ptr) : Option Heap :=
  match h[ride]? with
  | none => none
  | some r => some (h.set ride r.calculateFare)

/-- The call `ride->rideDetails()` through a `Ride*` (line 145).  The call names
the virtual `Ride::rideDetails() const` of line 23.  The functions of lines 47
and 66 are declared without `const`, so they have another signature and do not
override it (the `override` specifiers there are rejected by a compiler): the
final overrider is the base body, for either variant. -/
def Heap.rideDetails (h : Heap) (ride : Ptr) : Option (List Item) :=
  match h[ride]? with
  | none => none
  | some r => some (Ride.rideDetails r)

/-! ## Driver (lines 73-102) -/

/-- The data members of `class Driver`. -/
structure Driver where
  driverID : String
  name : String
  rating : F64
  assignedRides : List Ptr
  deriving DecidableEq

/-- The constructor `Driver::Driver` (lines 81-82); the vector starts empty. -/
def Driver.new (id n : String) (r : F64) : Driver :=
  { driverID := id, name := n, rating := r, assignedRides := [] }

/-- The method `Driver::addRide` (lines 84-86): `push_back`. -/
def Driver.addRide (d : Driver) (ride : Ptr) : Driver :=
  { d with assignedRides := d.assignedRides ++ [ride] }

/-- The accumulation loop of `Driver::getDriverInfo` (lines 95-98). -/
def Driver.totalEarnings (h : Heap) (d : Driver) : Option F64 :=
  d.assignedRides.foldlM
    (fun totalEarnings r => (h[r]?).map (fun ride => F64.add totalEarnings ride.getFare))
    (F64.ofDecimal 0 1)

/-- The text `Driver::getDriverInfo` writes (lines 89-93 and 99-100) once the
loop has produced `totalEarnings`. -/
def Driver.report (d : Driver) (totalEarnings : F64) : List Item :=
  [.text "===========================\n",
   .text "Driver Info:\n",
   .text "Name: ", .text d.name, .text " (ID: ", .text d.driverID, .text ")\n",
   .text "Rating: ", .real d.rating, .text " / 5.0\n",
   .text "Completed Rides: ", .size d.assignedRides.length, .text "\n",
   .text "Total Earnings: $", .fixed, .setprecision 2, .real totalEarnings, .text "\n",
   .text "===========================\n"]

/-- The method `Driver::getDriverInfo` (lines 88-101). -/
def Driver.getDriverInfo (h : Heap) (d : Driver) : Option (List Item) :=
  (d.totalEarnings h).map d.report

/-! ## Rider (lines 104-129) -/

/-- The data members of `class Rider`. -/
structure Rider where
  riderID : String
  name : String
  requestedRides : List Ptr
  deriving DecidableEq

/-- The constructor `Rider::Rider` (line 111); the vector starts empty. -/
def Rider.new (id n : String) : Rider :=
  { riderID := id, name := n, requestedRides := [] }

/-- The method `Rider::requestRide` (lines 113-116): the rider after the
`push_back`, and the returned pointer. -/
def Rider.requestRide (r : Rider) (ride : Ptr) : Rider × Ptr :=
  ({ r with requestedRides := r.requestedRides ++ [ride] }, ride)

/-- One line of the loop of `Rider::viewRides` (lines 124-125). -/
def Rider.rideLine (h : Heap) (r : Ptr) : Option (List Item) :=
  (h[r]?).map (fun ride =>
    [.text "  - Ride ID: ", .text ride.getID,
     .text ", Fare: $", .fixed, .setprecision 2, .real ride.getFare, .text "\n"])

/-- The method `Rider::viewRides` (lines 118-128). -/
def Rider.viewRides (h : Heap) (r : Rider) : Option (List Item) :=
  (r.requestedRides.foldlM (fun out ride => (Rider.rideLine h ride).map (fun l => out ++ l))
    [.text "===========================\n",
     .text "Rider History for: ", .text r.name, .text "\n",
     .text "Total Rides: ", .size r.requestedRides.length, .text "\n",
     .text "---------------------------\n"]).map
    (fun out => out ++ [.text "===========================\n"])

/-! ## Orchestration (lines 131-157) -/

/-- The objects of `main` and the text written so far. -/
structure World where
  heap : Heap
  driver1 : Driver
  rider1 : Rider
  out : List Item
  deriving DecidableEq

/-- The body of the loop of `main` (lines 144-149) for the pointer `r`. -/
def mainStep (w : World) (r : Ptr) : Option World :=
  match Heap.calculateFare w.heap r with
  | none => none
  | some heap =>
    match Heap.rideDetails heap r with
    | none => none
    | some details =>
      some { heap := heap,
             driver1 := w.driver1.addRide r,
             rider1 := (w.rider1.requestRide r).1,
             out := w.out ++ details ++ [.text "---------------------------\n"] }

/-- The function `main` (lines 131-157); `ride1`, `ride2`, `ride3` are the
objects at addresses 0, 1 and 2. -/
def main : Option World :=
  let driver1 := Driver.new "D101" "James" (F64.ofDecimal 48 1)
  let rider1 := Rider.new "R201" "Kate"
  let ride1 := StandardRide.new "S1001" "123 Main St" "456 Oak Ave" (F64.ofDecimal 50 1)
  let ride2 := PremiumRide.new "P1002" "789 Pine Ln" "321 Maple Dr" (F64.ofDecimal 120 1)
  let ride3 := StandardRide.new "S1003" "321 Maple Dr" "123 Main St" (F64.ofDecimal 30 1)
  let allRides : List Ptr := [0, 1, 2]
  let w0 : World :=
    { heap := [ride1, ride2, ride3], driver1 := driver1, rider1 := rider1,
      out := [.text "--- Processing All Rides Polymorphically ---\n", .endl] }
  match allRides.foldlM mainStep w0 with
  | none => none
  | some w =>
    let out := w.out ++ [.text "\n--- Final System State ---\n", .endl]
    match w.driver1.getDriverInfo w.heap with
    | none => none
    | some info =>
      match w.rider1.viewRides w.heap with
      | none => none
      | some history => some { w with out := out ++ info ++ history }

/-! ## Sequences of calls -/

/-- One call a client can make on the objects of a `World`. -/
inductive Op where
  | calculateFare (ride : Ptr) : Op
  | rideDetails (ride : Ptr) : Op
  | addRide (ride : Ptr) : Op
  | getDriverInfo : Op
  | requestRide (ride : Ptr) : Op
  | viewRides : Op
  deriving DecidableEq

/-- The effect of one call: `ride->calculateFare()`, `ride->rideDetails()`,
`driver1.addRide(ride)`, `driver1.getDriverInfo()`, `rider1.requestRide(ride)`
or `rider1.viewRides()`. -/
def step (w : World) : Op → Option World
  | .calculateFare ride => (Heap.calculateFare w.heap ride).map (fun h => { w with heap := h })
  | .rideDetails ride => (Heap.rideDetails w.heap ride).map (fun o => { w with out := w.out ++ o })
  | .addRide ride => some { w with driver1 := w.driver1.addRide ride }
  | .getDriverInfo => (w.driver1.getDriverInfo w.heap).map (fun o => { w with out := w.out ++ o })
  | .requestRide ride => some { w with rider1 := (w.rider1.requestRide ride).1 }
  | .viewRides => (w.rider1.viewRides w.heap).map (fun o => { w with out := w.out ++ o })

/-- The effect of a sequence of calls, in order. -/
def run (w : World) (ops : List Op) : Option World := ops.foldlM step w

/-! ## Derived notions used in the statements -/

/-- The sum of a sequence of fares as the program forms it: accumulated from
`0.0` in sequence order, one binary64 addition per fare. -/
def fareSum (fares : List F64) : F64 := fares.foldl F64.add (F64.ofDecimal 0 1)

/-- The rider after the calls `requestRide(p)` for the `p` of `ps`, in order. -/
def Rider.requestAll (r : Rider) (ps : List Ptr) : Rider :=
  ps.foldl (fun r p => (r.requestRide p).1) r

/-! ## Sample objects -/

/-- A Standard ride of distance 5.0 whose fare has not been computed. -/
def sampleRide : Ride :=
  StandardRide.new "S1001" "123 Main St" "456 Oak Ave" (F64.ofDecimal 50 1)

/-- A Premium ride of distance 12.0 whose fare has not been computed. -/
def samplePremium : Ride :=
  PremiumRide.new "P1002" "789 Pine Ln" "321 Maple Dr" (F64.ofDecimal 120 1)

/-- A driver with no ride. -/
def sampleDriver : Driver := Driver.new "D101" "James" (F64.ofDecimal 48 1)

/-- A rider with no ride. -/
def sampleRider : Rider := Rider.new "R201" "Kate"

/-- Two rides with computed fares, at addresses 0 and 1. -/
def sampleHeap : Heap := [sampleRide.calculateFare, samplePremium.calculateFare]

/-- One uncomputed ride at address 0, a driver and a rider without rides. -/
def sampleWorld : World :=
  { heap := [samplePremium], driver1 := sampleDriver, rider1 := sampleRider, out := [] }

/-! ## Auxiliary lemmas -/

/-- The literal `10.0` of `MINIMUM_FARE` and the literal `10.00` are one double. -/
theorem minimum_fare_eq : PremiumRide.MINIMUM_FARE = F64.ofDecimal 1000 2 := by decide

/-- The literal `0.0` is the positive zero. -/
theorem zero_literal_eq : F64.ofDecimal 0 1 = F64.fin false 0 0 := by decide

/-- The accumulation loop over pointers that address the rides `rs`. -/
theorem loop_eq (h : Heap) (ps : List Ptr) (rs : List Ride)
    (hv : List.Forall₂ (fun p r => h[p]? = some r) ps rs) (acc : F64) :
    ps.foldlM (fun t p => (h[p]?).map (fun ride => F64.add t ride.getFare)) acc
      = some ((rs.map Ride.getFare).foldl F64.add acc) := by
  induction hv generalizing acc with
  | nil => rfl
  | cons hpr _ ih => simp [List.foldlM_cons, hpr, ih]

/-- A loop that produced a total went through valid pointers only. -/
theorem loop_valid (h : Heap) (ps : List Ptr) (acc t : F64)
    (hs : ps.foldlM (fun t p => (h[p]?).map (fun ride => F64.add t ride.getFare)) acc = some t) :
    ∀ q ∈ ps, q < h.length := by
  induction ps generalizing acc with
  | nil => simp
  | cons p ps ih =>
    simp only [List.foldlM_cons, Option.bind_eq_bind, Option.bind_eq_some, Option.map_eq_some'] at hs
    obtain ⟨a, ⟨r, hr, _⟩, hrest⟩ := hs
    intro q hq
    rcases List.mem_cons.mp hq with rfl | hq
    · by_contra hlt
      rw [List.getElem?_eq_none (Nat.le_of_not_lt hlt)] at hr
      cases hr
    · exact ih a hrest q hq

/-- Valid pointers address rides. -/
theorem rides_of_valid (h : Heap) (ps : List Ptr) (hv : ∀ q ∈ ps, q < h.length) :
    ∃ rs, List.Forall₂ (fun p r => h[p]? = some r) ps rs := by
  induction ps with
  | nil => exact ⟨[], List.Forall₂.nil⟩
  | cons p ps ih =>
    obtain ⟨rs, hrs⟩ := ih (fun q hq => hv q (List.mem_cons_of_mem _ hq))
    have hp : p < h.length := hv p (List.mem_cons_self _ _)
    exact ⟨h[p] :: rs, List.Forall₂.cons (List.getElem?_eq_getElem hp) hrs⟩

/-- A sequence of `addRide` calls appends the pointers in call order. -/
theorem addRide_foldl (ps : List Ptr) (d : Driver) :
    (ps.foldl Driver.addRide d).assignedRides = d.assignedRides ++ ps := by
  induction ps generalizing d with
  | nil => simp
  | cons p ps ih => simp [ih, Driver.addRide]

/-- A sequence of `requestRide` calls appends the pointers in call order. -/
theorem requestAll_rides (ps : List Ptr) (r : Rider) :
    (r.requestAll ps).requestedRides = r.requestedRides ++ ps := by
  unfold Rider.requestAll
  induction ps generalizing r with
  | nil => simp
  | cons p ps ih =>
    rw [List.foldl_cons, ih]
    simp [Rider.requestRide]

/-- The calls of `requestRide` keep the rider's name. -/
theorem requestAll_name (ps : List Ptr) (r : Rider) : (r.requestAll ps).name = r.name := by
  unfold Rider.requestAll
  induction ps generalizing r with
  | nil => simp
  | cons p ps ih =>
    rw [List.foldl_cons, ih]
    simp [Rider.requestRide]

/-- The loop of `viewRides` over valid pointers appends lines to the text. -/
theorem lines_of_valid (h : Heap) (ps : List Ptr) (hv : ∀ q ∈ ps, q < h.length)
    (out : List Item) :
    ∃ lines, ps.foldlM (fun out ride => (Rider.rideLine h ride).map (fun l => out ++ l)) out
      = some (out ++ lines) := by
  induction ps generalizing out with
  | nil => exact ⟨[], by simp⟩
  | cons p ps ih =>
    have hp : p < h.length := hv p (List.mem_cons_self _ _)
    cases hl : Rider.rideLine h p with
    | none => simp [Rider.rideLine, List.getElem?_eq_getElem hp] at hl
    | some l =>
      obtain ⟨ls, hls⟩ := ih (fun q hq => hv q (List.mem_cons_of_mem _ hq)) (out ++ l)
      exact ⟨l ++ ls, by simp [List.foldlM_cons, hl, hls]⟩

/-- The total after one more `addRide` is the earlier total plus one fare. -/
theorem total_addRide (h : Heap) (d : Driver) (p : Ptr) :
    (d.addRide p).totalEarnings h
      = (d.totalEarnings h).bind (fun t => (h[p]?).map (fun ride => F64.add t ride.getFare)) := by
  simp [Driver.totalEarnings, Driver.addRide, List.foldlM_append]

/-- Rewriting the object at `p` does not change a loop that never visits `p`. -/
theorem loop_set_of_not_mem (h : Heap) (p : Ptr) (x : Ride) (ps : List Ptr) (hp : p ∉ ps)
    (acc : F64) :
    ps.foldlM (fun t q => ((h.set p x)[q]?).map (fun ride => F64.add t ride.getFare)) acc
      = ps.foldlM (fun t q => (h[q]?).map (fun ride => F64.add t ride.getFare)) acc := by
  induction ps generalizing acc with
  | nil => rfl
  | cons q ps ih =>
    have hq : p ≠ q := fun e => hp (e ▸ List.mem_cons_self _ _)
    have hps : p ∉ ps := fun e => hp (List.mem_cons_of_mem _ e)
    simp only [List.foldlM_cons, List.getElem?_set_ne hq]
    congr 1
    funext a
    exact ih hps a

/-- Calls other than `calculateFare` on `p` leave the object at `p` as it is. -/
theorem run_keeps_object (p : Ptr) (x : Ride) (ops : List Op)
    (hops : Op.calculateFare p ∉ ops) :
    ∀ w w' : World, w.heap[p]? = some x → run w ops = some w' → w'.heap[p]? = some x := by
  induction ops with
  | nil =>
    intro w w' hx hrun
    simp [run] at hrun
    exact hrun ▸ hx
  | cons op ops ih =>
    intro w w' hx hrun
    have hop : Op.calculateFare p ≠ op := fun e => hops (e ▸ List.mem_cons_self _ _)
    have hrest : Op.calculateFare p ∉ ops := fun e => hops (List.mem_cons_of_mem _ e)
    simp only [run, List.foldlM_cons, Option.bind_eq_bind, Option.bind_eq_some] at hrun
    obtain ⟨w1, hstep, hrun1⟩ := hrun
    refine ih hrest w1 w' ?_ hrun1
    cases op with
    | calculateFare q =>
      have hq : q ≠ p := fun e => hop (e ▸ rfl)
      simp only [step, Heap.calculateFare, Option.map_eq_some'] at hstep
      obtain ⟨h1, hh, rfl⟩ := hstep
      cases hy : w.heap[q]? with
      | none => simp [hy] at hh
      | some y =>
        simp only [hy, Option.some.injEq] at hh
        subst hh
        simp [List.getElem?_set_ne hq, hx]
    | rideDetails q =>
      simp only [step, Option.map_eq_some'] at hstep
      obtain ⟨_, _, rfl⟩ := hstep
      exact hx
    | addRide q =>
      simp only [step, Option.some.injEq] at hstep
      subst hstep
      exact hx
    | getDriverInfo =>
      simp only [step, Option.map_eq_some'] at hstep
      obtain ⟨_, _, rfl⟩ := hstep
      exact hx
    | requestRide q =>
      simp only [step, Option.some.injEq] at hstep
      subst hstep
      exact hx
    | viewRides =>
      simp only [step, Option.map_eq_some'] at hstep
      obtain ⟨_, _, rfl⟩ := hstep
      exact hx

/-! ## Checks of the arithmetic on known binary64 facts -/

/-- The sum `0.1 + 0.2` is `0.30000000000000004`, not `0.3`. -/
theorem check_add_inexact :
    F64.add (F64.ofDecimal 1 1) (F64.ofDecimal 2 1) = F64.ofDecimal 30000000000000004 17
    ∧ F64.add (F64.ofDecimal 1 1) (F64.ofDecimal 2 1) ≠ F64.ofDecimal 3 1 := by decide

/-- The product `0.1 * 1.50` is `0.15000000000000002`. -/
theorem check_mul_inexact :
    F64.mul (F64.ofDecimal 1 1) (F64.ofDecimal 150 2) = F64.ofDecimal 15000000000000002 17 := by
  decide

/-- The largest double times `1.50` overflows to `+inf`; the smallest positive
double times `1.50` is a tie and rounds to the even neighbour; half of it rounds
to zero. -/
theorem check_mul_range :
    F64.mul (F64.fin false (2 ^ 53 - 1) 2045) (F64.ofDecimal 150 2) = F64.inf false
    ∧ F64.mul (F64.fin false 1 0) (F64.ofDecimal 150 2) = F64.fin false 2 0
    ∧ F64.mul (F64.fin false 1 0) (F64.ofDecimal 5 1) = F64.fin false 0 0 := by decide

/-- Signed zeros, infinities and NaN behave as in IEEE 754 and `std::max`. -/
theorem check_special_values :
    F64.add (F64.fin true 0 0) (F64.fin false 0 0) = F64.fin false 0 0
    ∧ F64.mul (F64.fin true 0 0) (F64.ofDecimal 150 2) = F64.fin true 0 0
    ∧ F64.mul (F64.inf false) (F64.fin false 0 0) = F64.nan
    ∧ F64.add (F64.inf false) (F64.inf true) = F64.nan
    ∧ F64.lt F64.nan (F64.ofDecimal 100 1) = false
    ∧ F64.max F64.nan (F64.ofDecimal 100 1) = F64.nan
    ∧ F64.max (F64.ofDecimal 100 1) F64.nan = F64.ofDecimal 100 1 := by decide

/-- The literals of the program: `1.50` is 3/2, `3.00` is 3, `10.0` is 10 and
`4.8` is the double `5404319552844595 / 2^50`. -/
theorem check_literals :
    F64.ofDecimal 150 2 = F64.fin false (3 * 2 ^ 51) 1022
    ∧ F64.ofDecimal 300 2 = F64.fin false (3 * 2 ^ 51) 1023
    ∧ F64.ofDecimal 100 1 = F64.fin false (5 * 2 ^ 50) 1025
    ∧ F64.ofDecimal 48 1 = F64.fin false 5404319552844595 1024 := by decide

/-! ## Fares -/

/-- C1: for every Standard ride, whatever its identifier, locations and distance
`d` (and whatever fare it held before), after `calculateFare` the value returned
by `getFare` is `d * 1.50`, the product the program's `double` arithmetic forms,
with no tolerance. -/
theorem standard_fare_eq (id pickup dropoff : String) (d : F64) :
    (StandardRide.new id pickup dropoff d).calculateFare.getFare
        = F64.mul d (F64.ofDecimal 150 2)
    ∧ ∀ f : F64,
        (Ride.calculateFare
          { variant := .Standard, rideID := id, pickupLocation := pickup,
            dropoffLocation := dropoff, distance := d, fare := f }).getFare
        = F64.mul d (F64.ofDecimal 150 2) :=
  ⟨rfl, fun _ => rfl⟩

/-- C2: for every Premium ride, whatever its identifier, locations and distance
`d` (and whatever fare it held before), after `calculateFare` the value returned
by `getFare` is `std::max(d * 3.00, 10.00)`. -/
theorem premium_fare_eq (id pickup dropoff : String) (d : F64) :
    (PremiumRide.new id pickup dropoff d).calculateFare.getFare
        = F64.max (F64.mul d (F64.ofDecimal 300 2)) (F64.ofDecimal 1000 2)
    ∧ ∀ f : F64,
        (Ride.calculateFare
          { variant := .Premium, rideID := id, pickupLocation := pickup,
            dropoffLocation := dropoff, distance := d, fare := f }).getFare
        = F64.max (F64.mul d (F64.ofDecimal 300 2)) (F64.ofDecimal 1000 2) := by
  rw [← minimum_fare_eq]
  exact ⟨rfl, fun _ => rfl⟩

/-! ## Driver totals -/

/-- C3: for a driver whose entries address the rides `rs0`, after the calls
`addRide(p)` for the pointers `ps` addressing the rides `rs` (repetitions
allowed), the total earnings `getDriverInfo` computes and prints are the sum of
`getFare` over `rs0 ++ rs`, one term per call; adding one more ride twice adds
its fare twice. -/
theorem total_earnings_eq_sum (h : Heap) (d : Driver) (rs0 : List Ride) (ps : List Ptr)
    (rs : List Ride)
    (h0 : List.Forall₂ (fun p r => h[p]? = some r) d.assignedRides rs0)
    (h1 : List.Forall₂ (fun p r => h[p]? = some r) ps rs) :
    (ps.foldl Driver.addRide d).totalEarnings h
        = some (fareSum ((rs0 ++ rs).map Ride.getFare))
    ∧ (ps.foldl Driver.addRide d).getDriverInfo h
        = some ((ps.foldl Driver.addRide d).report (fareSum ((rs0 ++ rs).map Ride.getFare)))
    ∧ ∀ (p : Ptr) (r : Ride), h[p]? = some r →
        (((ps.foldl Driver.addRide d).addRide p).addRide p).totalEarnings h
          = some (F64.add (F64.add (fareSum ((rs0 ++ rs).map Ride.getFare)) r.getFare)
                    r.getFare) := by
  have key : ∀ (qs : List Ptr) (xs : List Ride),
      List.Forall₂ (fun p r => h[p]? = some r) qs xs →
      ((qs.foldl Driver.addRide (ps.foldl Driver.addRide d)).totalEarnings h
        = some (fareSum ((rs0 ++ rs ++ xs).map Ride.getFare))) := by
    intro qs xs hq
    unfold Driver.totalEarnings fareSum
    rw [addRide_foldl, addRide_foldl]
    exact loop_eq h _ _ (List.rel_append (List.rel_append h0 h1) hq) _
  have t := key [] [] List.Forall₂.nil
  simp only [List.foldl_nil, List.append_nil] at t
  refine ⟨t, ?_, ?_⟩
  · simp [Driver.getDriverInfo, t]
  · intro p r hp
    have t2 := key [p, p] [r, r] (List.Forall₂.cons hp (List.Forall₂.cons hp List.Forall₂.nil))
    simp only [List.foldl_cons, List.foldl_nil] at t2
    rw [t2]
    simp [fareSum, List.foldl_append]

/-- Witness of C3: a new driver given the ride of fare 7.50 twice earns 15.00. -/
theorem total_earnings_eq_sum_witness :
    List.Forall₂ (fun p r => sampleHeap[p]? = some r) sampleDriver.assignedRides []
    ∧ List.Forall₂ (fun p r => sampleHeap[p]? = some r) [0, 0]
        [sampleRide.calculateFare, sampleRide.calculateFare]
    ∧ (([0, 0] : List Ptr).foldl Driver.addRide sampleDriver).totalEarnings sampleHeap
        = some (F64.ofDecimal 1500 2) :=
  ⟨List.Forall₂.nil,
   List.Forall₂.cons rfl (List.Forall₂.cons rfl List.Forall₂.nil),
   (total_earnings_eq_sum sampleHeap sampleDriver [] [0, 0]
      [sampleRide.calculateFare, sampleRide.calculateFare] List.Forall₂.nil
      (List.Forall₂.cons rfl (List.Forall₂.cons rfl List.Forall₂.nil))).1.trans (by decide)⟩

/-- C8: `addRide(r)` is total and appends `r` at the end with no duplicate check:
the count grows by one, the earlier entries keep their places, adding `r` twice
stores it twice, a new driver has count 0 and after `n` calls the count is `n`. -/
theorem addRide_appends (d : Driver) (r : Ptr) :
    (d.addRide r).assignedRides = d.assignedRides ++ [r]
    ∧ (d.addRide r).assignedRides.length = d.assignedRides.length + 1
    ∧ (∀ i : Nat, i < d.assignedRides.length →
        (d.addRide r).assignedRides[i]? = d.assignedRides[i]?)
    ∧ ((d.addRide r).addRide r).assignedRides = d.assignedRides ++ [r, r]
    ∧ (∀ (id n : String) (rating : F64), (Driver.new id n rating).assignedRides.length = 0)
    ∧ (∀ (id n : String) (rating : F64) (ps : List Ptr),
        (ps.foldl Driver.addRide (Driver.new id n rating)).assignedRides.length = ps.length) := by
  refine ⟨rfl, by simp [Driver.addRide], ?_, by simp [Driver.addRide], fun _ _ _ => rfl, ?_⟩
  · intro i hi
    simp [Driver.addRide, List.getElem?_append_left hi]
  · intro id n rating ps
    simp [addRide_foldl, Driver.new]

/-- Witness of C8: a driver holding pointer 0 keeps it in place when 0 is added
again. -/
theorem addRide_appends_witness :
    0 < (sampleDriver.addRide 0).assignedRides.length
    ∧ ((sampleDriver.addRide 0).addRide 0).assignedRides[0]?
        = (sampleDriver.addRide 0).assignedRides[0]? :=
  ⟨by decide, (addRide_appends (sampleDriver.addRide 0) 0).2.2.1 0 (by decide)⟩

/-- C9: the total is recomputed from the current fares at every call.  When the
ride at `p` is added while its fare is still 0.0 the total counts it as 0.0, and
once `calculateFare` has run on it the next `getDriverInfo` total is the total
of the earlier entries (unchanged if `p` was not among them) plus the computed
fare. -/
theorem total_recomputed (h : Heap) (d : Driver) (p : Ptr) (r : Ride) (t : F64)
    (hr : h[p]? = some r) (h0 : r.getFare = F64.fin false 0 0)
    (ht : d.totalEarnings h = some t) :
    (d.addRide p).totalEarnings h = some (F64.add t (F64.fin false 0 0))
    ∧ Heap.calculateFare h p = some (h.set p r.calculateFare)
    ∧ ∃ t' : F64, d.totalEarnings (h.set p r.calculateFare) = some t'
        ∧ (p ∉ d.assignedRides → t' = t)
        ∧ (d.addRide p).totalEarnings (h.set p r.calculateFare)
            = some (F64.add t' r.calculateFare.getFare)
        ∧ (d.addRide p).getDriverInfo (h.set p r.calculateFare)
            = some ((d.addRide p).report (F64.add t' r.calculateFare.getFare)) := by
  have hp : p < h.length := by
    by_contra hlt
    rw [List.getElem?_eq_none (Nat.le_of_not_lt hlt)] at hr
    cases hr
  have hv : ∀ q ∈ d.assignedRides, q < (h.set p r.calculateFare).length := by
    intro q hq
    rw [List.length_set]
    exact loop_valid h _ _ _ ht q hq
  obtain ⟨rs, hrs⟩ := rides_of_valid _ _ hv
  have ht' : d.totalEarnings (h.set p r.calculateFare)
      = some ((rs.map Ride.getFare).foldl F64.add (F64.ofDecimal 0 1)) := loop_eq _ _ _ hrs _
  have hnew : (h.set p r.calculateFare)[p]? = some r.calculateFare := by
    simp [List.getElem?_set_self hp]
  have hafter : (d.addRide p).totalEarnings (h.set p r.calculateFare)
      = some (F64.add ((rs.map Ride.getFare).foldl F64.add (F64.ofDecimal 0 1))
          r.calculateFare.getFare) := by
    rw [total_addRide, ht', hnew]
    rfl
  refine ⟨?_, ?_, _, ht', ?_, hafter, ?_⟩
  · rw [total_addRide, ht, hr, ← h0]
    rfl
  · simp [Heap.calculateFare, hr]
  · intro hnm
    have e := loop_set_of_not_mem h p r.calculateFare d.assignedRides hnm (F64.ofDecimal 0 1)
    have e2 : d.totalEarnings (h.set p r.calculateFare) = d.totalEarnings h := e
    rw [ht', ht] at e2
    exact Option.some.inj e2
  · simp [Driver.getDriverInfo, hafter]

/-- Witness of C9: the Standard ride of distance 5.0 is added uncomputed to a new
driver: the total is 0.0 before `calculateFare` and 7.50 after it. -/
theorem total_recomputed_witness :
    ([sampleRide] : Heap)[0]? = some sampleRide
    ∧ sampleRide.getFare = F64.fin false 0 0
    ∧ sampleDriver.totalEarnings [sampleRide] = some (F64.fin false 0 0)
    ∧ (sampleDriver.addRide 0).totalEarnings [sampleRide] = some (F64.fin false 0 0)
    ∧ Heap.calculateFare [sampleRide] 0 = some [sampleRide.calculateFare]
    ∧ (sampleDriver.addRide 0).totalEarnings [sampleRide.calculateFare]
        = some (F64.ofDecimal 750 2) :=
  ⟨rfl, by decide, by decide,
   (total_recomputed [sampleRide] sampleDriver 0 sampleRide (F64.fin false 0 0) rfl
      (by decide) (by decide)).1.trans (by decide),
   (total_recomputed [sampleRide] sampleDriver 0 sampleRide (F64.fin false 0 0) rfl
      (by decide) (by decide)).2.1,
   by decide⟩

/-! ## Rider history -/

/-- C4: the length of the history is the number of `requestRide` calls made on
the rider, repeated references included: `n` calls add `n` entries, a new rider
has exactly as many entries as calls, and `viewRides` prints that number after
`Total Rides: `. -/
theorem history_length_eq_calls (h : Heap) (r : Rider) (ps : List Ptr) :
    (r.requestAll ps).requestedRides.length = r.requestedRides.length + ps.length
    ∧ (∀ id n : String, ((Rider.new id n).requestAll ps).requestedRides.length = ps.length)
    ∧ ((∀ q ∈ r.requestedRides ++ ps, q < h.length) →
        ∃ lines : List Item, (r.requestAll ps).viewRides h = some (
          [.text "===========================\n",
           .text "Rider History for: ", .text r.name, .text "\n",
           .text "Total Rides: ", .size (r.requestedRides.length + ps.length), .text "\n",
           .text "---------------------------\n"]
          ++ lines ++ [.text "===========================\n"])) := by
  refine ⟨by simp [requestAll_rides], ?_, ?_⟩
  · intro id n
    simp [requestAll_rides, Rider.new]
  · intro hv
    obtain ⟨ls, hls⟩ := lines_of_valid h (r.requestedRides ++ ps) hv
      [.text "===========================\n",
       .text "Rider History for: ", .text r.name, .text "\n",
       .text "Total Rides: ", .size (r.requestedRides.length + ps.length), .text "\n",
       .text "---------------------------\n"]
    refine ⟨ls, ?_⟩
    simp only [Rider.viewRides, requestAll_rides, requestAll_name, List.length_append, hls]
    rfl

/-- Witness of C4: three calls, two of them with the same reference, give a
history of length 3 and a report. -/
theorem history_length_eq_calls_witness :
    (∀ q ∈ sampleRider.requestedRides ++ [0, 0, 1], q < sampleHeap.length)
    ∧ (sampleRider.requestAll [0, 0, 1]).requestedRides.length = 3
    ∧ ∃ lines : List Item, (sampleRider.requestAll [0, 0, 1]).viewRides sampleHeap = some (
        [.text "===========================\n",
         .text "Rider History for: ", .text sampleRider.name, .text "\n",
         .text "Total Rides: ", .size (sampleRider.requestedRides.length + [0, 0, 1].length),
         .text "\n",
         .text "---------------------------\n"]
        ++ lines ++ [.text "===========================\n"]) :=
  ⟨by decide,
   (history_length_eq_calls sampleHeap sampleRider [0, 0, 1]).1,
   (history_length_eq_calls sampleHeap sampleRider [0, 0, 1]).2.2 (by decide)⟩

/-- C5: `requestRide(r)` returns the reference `r` it was given, and the call
touches no ride object, so the reference still designates the same ride. -/
theorem requestRide_returns_argument (r : Rider) (ride : Ptr) :
    (r.requestRide ride).2 = ride
    ∧ ∀ w : World, (step w (.requestRide ride)).map World.heap = some w.heap :=
  ⟨rfl, fun _ => rfl⟩

/-! ## Concrete scenarios -/

/-- C6: the concrete fares: Standard 5.0 gives 7.50, Premium 12.0 gives 36.00,
Standard 3.0 gives 4.50 and Premium 1.0 gives 10.00 (the floor). -/
theorem concrete_fares (id pickup dropoff : String) :
    (StandardRide.new id pickup dropoff (F64.ofDecimal 50 1)).calculateFare.getFare
        = F64.ofDecimal 750 2
    ∧ (PremiumRide.new id pickup dropoff (F64.ofDecimal 120 1)).calculateFare.getFare
        = F64.ofDecimal 3600 2
    ∧ (StandardRide.new id pickup dropoff (F64.ofDecimal 30 1)).calculateFare.getFare
        = F64.ofDecimal 450 2
    ∧ (PremiumRide.new id pickup dropoff (F64.ofDecimal 10 1)).calculateFare.getFare
        = F64.ofDecimal 1000 2 := by
  refine ⟨?_, ?_, ?_, ?_⟩
  · show F64.mul (F64.ofDecimal 50 1) (F64.ofDecimal 150 2) = F64.ofDecimal 750 2
    decide
  · show F64.max (F64.mul (F64.ofDecimal 120 1) (F64.ofDecimal 300 2)) (F64.ofDecimal 100 1)
      = F64.ofDecimal 3600 2
    decide
  · show F64.mul (F64.ofDecimal 30 1) (F64.ofDecimal 150 2) = F64.ofDecimal 450 2
    decide
  · show F64.max (F64.mul (F64.ofDecimal 10 1) (F64.ofDecimal 300 2)) (F64.ofDecimal 100 1)
      = F64.ofDecimal 1000 2
    decide

/-- C7: `main` runs to completion; at its end the driver holds the three rides
in order (count 3) with total earnings 48.00, the rider history is S1001, P1002,
S1003 with fares 7.50, 36.00 and 4.50, and both reports close the output. -/
theorem main_final_reports :
    ∃ w : World, main = some w
      ∧ w.driver1.assignedRides = [0, 1, 2]
      ∧ w.rider1.requestedRides = [0, 1, 2]
      ∧ w.heap.map (fun r => (r.getID, r.getFare))
          = [("S1001", F64.ofDecimal 750 2), ("P1002", F64.ofDecimal 3600 2),
             ("S1003", F64.ofDecimal 450 2)]
      ∧ w.driver1.totalEarnings w.heap = some (F64.ofDecimal 4800 2)
      ∧ w.driver1.getDriverInfo w.heap = some
          [.text "===========================\n",
           .text "Driver Info:\n",
           .text "Name: ", .text "James", .text " (ID: ", .text "D101", .text ")\n",
           .text "Rating: ", .real (F64.ofDecimal 48 1), .text " / 5.0\n",
           .text "Completed Rides: ", .size 3, .text "\n",
           .text "Total Earnings: $", .fixed, .setprecision 2, .real (F64.ofDecimal 4800 2),
           .text "\n",
           .text "===========================\n"]
      ∧ w.rider1.viewRides w.heap = some
          [.text "===========================\n",
           .text "Rider History for: ", .text "Kate", .text "\n",
           .text "Total Rides: ", .size 3, .text "\n",
           .text "---------------------------\n",
           .text "  - Ride ID: ", .text "S1001", .text ", Fare: $", .fixed, .setprecision 2,
           .real (F64.ofDecimal 750 2), .text "\n",
           .text "  - Ride ID: ", .text "P1002", .text ", Fare: $", .fixed, .setprecision 2,
           .real (F64.ofDecimal 3600 2), .text "\n",
           .text "  - Ride ID: ", .text "S1003", .text ", Fare: $", .fixed, .setprecision 2,
           .real (F64.ofDecimal 450 2), .text "\n",
           .text "===========================\n"]
      ∧ ∃ before info history : List Item,
          w.driver1.getDriverInfo w.heap = some info
          ∧ w.rider1.viewRides w.heap = some history
          ∧ w.out = before ++ [.text "\n--- Final System State ---\n", .endl] ++ info ++ history := by
  refine ⟨_, rfl, by decide, by decide, by decide, by decide, by decide, by decide,
    _, _, _, rfl, rfl, rfl⟩

/-! ## The uncomputed fare -/

/-- C10: for either variant and every constructor input, `getFare` returns 0.0
on the constructed ride, and still does after any sequence of calls that does
not invoke `calculateFare` on that ride; `getFare` is total, so the read never
fails. -/
theorem fare_zero_until_computed (v : Variant) (id pickup dropoff : String) (d : F64) :
    (Ride.new v id pickup dropoff d).getFare = F64.fin false 0 0
    ∧ (StandardRide.new id pickup dropoff d).getFare = F64.fin false 0 0
    ∧ (PremiumRide.new id pickup dropoff d).getFare = F64.fin false 0 0
    ∧ ∀ (w w' : World) (p : Ptr) (ops : List Op),
        w.heap[p]? = some (Ride.new v id pickup dropoff d) →
        Op.calculateFare p ∉ ops → run w ops = some w' →
        (w'.heap[p]?).map Ride.getFare = some (F64.fin false 0 0) := by
  refine ⟨zero_literal_eq, zero_literal_eq, zero_literal_eq, ?_⟩
  intro w w' p ops hx hops hrun
  rw [run_keeps_object p _ ops hops w w' hx hrun]
  exact congrArg some zero_literal_eq

/-- Witness of C10: a Premium ride that is registered, printed and reported
without `calculateFare` still has fare 0.0. -/
theorem fare_zero_until_computed_witness :
    sampleWorld.heap[0]?
        = some (Ride.new .Premium "P1002" "789 Pine Ln" "321 Maple Dr" (F64.ofDecimal 120 1))
    ∧ Op.calculateFare 0 ∉
        [Op.addRide 0, Op.requestRide 0, Op.rideDetails 0, Op.getDriverInfo, Op.viewRides]
    ∧ ∃ w' : World,
        run sampleWorld
          [Op.addRide 0, Op.requestRide 0, Op.rideDetails 0, Op.getDriverInfo, Op.viewRides]
          = some w'
        ∧ (w'.heap[0]?).map Ride.getFare = some (F64.fin false 0 0) :=
  ⟨rfl, by decide, _, rfl,
   (fare_zero_until_computed .Premium "P1002" "789 Pine Ln" "321 Maple Dr"
      (F64.ofDecimal 120 1)).2.2.2 sampleWorld _ 0
      [Op.addRide 0, Op.requestRide 0, Op.rideDetails 0, Op.getDriverInfo, Op.viewRides]
      rfl (by decide) rfl⟩


/-! ## Bounds on rounding -/

/-- The search of `excess` stops at 0 or just above a shift that still leaves
at least 53 bits. -/
theorem F64.excess_spec (n : Nat) :
    F64.excess n = 0 ∨ 2 ^ 53 ≤ n >>> (F64.excess n - 1) := by
  have key : ∀ (l : List Nat) (a : Nat), (a = 0 ∨ 2 ^ 53 ≤ n >>> (a - 1)) →
      (l.foldl (fun a k => if 2 ^ 53 ≤ n >>> (a + k - 1) then a + k else a) a = 0
        ∨ 2 ^ 53 ≤ n >>> (l.foldl (fun a k => if 2 ^ 53 ≤ n >>> (a + k - 1) then a + k else a) a - 1)) := by
    intro l
    induction l with
    | nil => intro a ha; exact ha
    | cons k l ih =>
      intro a ha
      rw [List.foldl_cons]
      apply ih
      by_cases hc : 2 ^ 53 ≤ n >>> (a + k - 1)
      · rw [if_pos hc]; exact Or.inr hc
      · rw [if_neg hc]; exact ha
  exact key _ 0 (Or.inl rfl)

/-- The result of `round` is an infinity of the given sign or a finite value of
that sign within one unit `W` of the exact quotient, where `W` is 1 or at most
`2^(-52)` times the quotient. -/
theorem F64.round_cases (neg : Bool) (p q : Nat) :
    F64.round neg p q = F64.inf neg
    ∨ ∃ m e W : Nat, F64.round neg p q = F64.fin neg m e
        ∧ (p <<< 1074) / q < m * 2 ^ e + W
        ∧ m * 2 ^ e ≤ (p <<< 1074) / q + W
        ∧ (W = 1 ∨ 2 ^ 52 * W ≤ (p <<< 1074) / q) := by
  unfold F64.round
  simp only []
  generalize hP : p <<< 1074 = P
  have hinv := F64.excess_spec (P / q)
  generalize hex : F64.excess (P / q) = ex at hinv
  have hW : 0 < 2 ^ ex := Nat.pow_pos (by decide)
  have hd : q <<< ex = q * 2 ^ ex := Nat.shiftLeft_eq _ _
  rw [hd]
  have hn : P / (q * 2 ^ ex) = P / q / 2 ^ ex := (Nat.div_div_eq_div_mul _ _ _).symm
  have h1 : P / (q * 2 ^ ex) * 2 ^ ex ≤ P / q := by
    rw [hn]; exact Nat.div_mul_le_self _ _
  have h2 : P / q < P / (q * 2 ^ ex) * 2 ^ ex + 2 ^ ex := by
    rw [hn]
    have e1 := Nat.div_add_mod' (P / q) (2 ^ ex)
    have e2 := Nat.mod_lt (P / q) hW
    omega
  have h3 : 2 ^ ex = 1 ∨ 2 ^ 52 * 2 ^ ex ≤ P / q := by
    cases ex with
    | zero => exact Or.inl rfl
    | succ k =>
      right
      rcases hinv with h | h
      · cases h
      · rw [Nat.add_sub_cancel, Nat.shiftRight_eq_div_pow,
          Nat.le_div_iff_mul_le (Nat.pow_pos (by decide))] at h
        calc 2 ^ 52 * 2 ^ (k + 1) = 2 ^ 53 * 2 ^ k := by rw [Nat.pow_succ]; omega
          _ ≤ P / q := h
  generalize hm : (if 2 * (P % (q * 2 ^ ex)) < q * 2 ^ ex then P / (q * 2 ^ ex)
      else if q * 2 ^ ex < 2 * (P % (q * 2 ^ ex)) then P / (q * 2 ^ ex) + 1
      else if P / (q * 2 ^ ex) % 2 = 0 then P / (q * 2 ^ ex) else P / (q * 2 ^ ex) + 1) = m
  have hmn : m = P / (q * 2 ^ ex) ∨ m = P / (q * 2 ^ ex) + 1 := by
    rw [← hm]
    split_ifs <;> simp
  generalize P / (q * 2 ^ ex) = n at h1 h2 hmn
  generalize P / q = N at h1 h2 h3
  by_cases hc : m = 2 ^ 53
  · rw [if_pos hc]
    by_cases ho : 2045 < ex + 1
    · rw [if_pos ho]; exact Or.inl rfl
    · rw [if_neg ho]
      refine Or.inr ⟨2 ^ 52, ex + 1, 2 ^ ex, rfl, ?_, ?_, h3⟩
      · have e : 2 ^ 52 * 2 ^ (ex + 1) = m * 2 ^ ex := by rw [hc, Nat.pow_succ]; omega
        rw [e]
        rcases hmn with h | h <;> subst h
        · omega
        · rw [Nat.add_mul]; omega
      · have e : 2 ^ 52 * 2 ^ (ex + 1) = m * 2 ^ ex := by rw [hc, Nat.pow_succ]; omega
        rw [e]
        rcases hmn with h | h <;> subst h
        · omega
        · rw [Nat.add_mul]; omega
  · rw [if_neg hc]
    by_cases ho : 2045 < ex
    · rw [if_pos ho]; exact Or.inl rfl
    · rw [if_neg ho]
      refine Or.inr ⟨m, ex, 2 ^ ex, rfl, ?_, ?_, h3⟩
      · rcases hmn with h | h <;> subst h
        · omega
        · rw [Nat.add_mul]; omega
      · rcases hmn with h | h <;> subst h
        · omega
        · rw [Nat.add_mul]; omega


/-- Cancelling the common power of two in a product by three halves. -/
theorem quotient_half (M i j k : Nat) :
    ((M * ((3 * 2 ^ i) <<< j)) <<< k) / (1 <<< (i + j + k + 1)) = 3 * M / 2 := by
  have ha : 0 < (2 : Nat) ^ i := Nat.two_pow_pos i
  have hb : 0 < (2 : Nat) ^ j := Nat.two_pow_pos j
  have hc : 0 < (2 : Nat) ^ k := Nat.two_pow_pos k
  rw [Nat.shiftLeft_eq, Nat.shiftLeft_eq, Nat.shiftLeft_eq, Nat.one_mul,
    Nat.pow_succ, Nat.pow_add, Nat.pow_add]
  generalize (2 : Nat) ^ i = a at ha
  generalize (2 : Nat) ^ j = b at hb
  generalize (2 : Nat) ^ k = c at hc
  have e : M * (3 * a * b) * c = 3 * M * (a * b * c) := by ring
  rw [e, Nat.mul_comm (a * b * c) 2, Nat.mul_div_mul_right _ _ (Nat.mul_pos (Nat.mul_pos ha hb) hc)]

/-- Cancelling the common power of two in a product by three. -/
theorem quotient_whole (M i j k : Nat) :
    ((M * ((3 * 2 ^ i) <<< (j + 1))) <<< k) / (1 <<< (i + j + k + 1)) = 3 * M := by
  have ha : 0 < (2 : Nat) ^ i := Nat.two_pow_pos i
  have hb : 0 < (2 : Nat) ^ j := Nat.two_pow_pos j
  have hc : 0 < (2 : Nat) ^ k := Nat.two_pow_pos k
  rw [Nat.shiftLeft_eq, Nat.shiftLeft_eq, Nat.shiftLeft_eq, Nat.one_mul,
    Nat.pow_succ, Nat.pow_succ, Nat.pow_add, Nat.pow_add]
  generalize (2 : Nat) ^ i = a at ha
  generalize (2 : Nat) ^ j = b at hb
  generalize (2 : Nat) ^ k = c at hc
  have e : M * (3 * a * (b * 2)) * c = 3 * M * (a * b * c * 2) := by ring
  rw [e, Nat.mul_div_cancel _ (Nat.mul_pos (Nat.mul_pos (Nat.mul_pos ha hb) hc) (by decide))]

/-- The exact quotient that `round` sees for `d * 1.50`, in units of `2^(-1074)`:
three halves of the scaled magnitude of `d`. -/
theorem quotient_standard (M : Nat) :
    ((M * ((3 * 2 ^ 51) <<< 1022)) <<< 1074) / (1 <<< 2148) = 3 * M / 2 :=
  quotient_half M 51 1022 1074

/-- The exact quotient that `round` sees for `d * 3.00`: three times the scaled
magnitude of `d`. -/
theorem quotient_premium (M : Nat) :
    ((M * ((3 * 2 ^ 51) <<< 1023)) <<< 1074) / (1 <<< 2148) = 3 * M :=
  quotient_whole M 51 1022 1074


/-- The product `d * 1.50` of a finite `d` is the rounding of three halves of
its magnitude. -/
theorem standard_product_cases (s : Bool) (m e : Nat) :
    F64.mul (F64.fin s m e) (F64.ofDecimal 150 2) = F64.inf s
    ∨ ∃ m' e' W : Nat, F64.mul (F64.fin s m e) (F64.ofDecimal 150 2) = F64.fin s m' e'
        ∧ 3 * (m <<< e) / 2 < m' * 2 ^ e' + W
        ∧ m' * 2 ^ e' ≤ 3 * (m <<< e) / 2 + W
        ∧ (W = 1 ∨ 2 ^ 52 * W ≤ 3 * (m <<< e) / 2) := by
  have h : F64.mul (F64.fin s m e) (F64.ofDecimal 150 2)
      = F64.round s ((m <<< e) * ((3 * 2 ^ 51) <<< 1022)) (1 <<< 2148) := by
    rw [check_literals.1]
    cases s <;> rfl
  rw [h, ← quotient_standard (m <<< e)]
  exact F64.round_cases _ _ _

/-- The product `d * 3.00` of a finite `d` is the rounding of three times its
magnitude. -/
theorem premium_product_cases (s : Bool) (m e : Nat) :
    F64.mul (F64.fin s m e) (F64.ofDecimal 300 2) = F64.inf s
    ∨ ∃ m' e' W : Nat, F64.mul (F64.fin s m e) (F64.ofDecimal 300 2) = F64.fin s m' e'
        ∧ 3 * (m <<< e) < m' * 2 ^ e' + W
        ∧ m' * 2 ^ e' ≤ 3 * (m <<< e) + W
        ∧ (W = 1 ∨ 2 ^ 52 * W ≤ 3 * (m <<< e)) := by
  have h : F64.mul (F64.fin s m e) (F64.ofDecimal 300 2)
      = F64.round s ((m <<< e) * ((3 * 2 ^ 51) <<< 1023)) (1 <<< 2148) := by
    rw [check_literals.2.1]
    cases s <;> rfl
  rw [h, ← quotient_premium (m <<< e)]
  exact F64.round_cases _ _ _

/-- The scaled magnitude of a double with the significand of `10.0` is large. -/
theorem ten_scaled_large (k : Nat) : 16 ≤ (5 * 2 ^ 50) <<< k := by
  rw [Nat.shiftLeft_eq]
  have hc : 0 < (2 : Nat) ^ k := Nat.two_pow_pos k
  generalize (2 : Nat) ^ k = c at hc
  omega

/-- A value of negative sign is below `10.0`. -/
theorem lt_ten_of_negative (x : F64)
    (hx : x = F64.inf true ∨ ∃ m e : Nat, x = F64.fin true m e) :
    F64.lt x (F64.ofDecimal 100 1) = true := by
  rw [check_literals.2.2.1]
  rcases hx with rfl | ⟨m, e, rfl⟩
  · rfl
  · have hT := ten_scaled_large 1025
    simp only [F64.lt, F64.scaled, decide_eq_true_eq]
    generalize (5 * 2 ^ 50) <<< 1025 = T at hT ⊢
    generalize m <<< e = M
    omega

/-- C18 (amended): for every distance that is not a NaN and whose Standard fare
has not overflowed to +infinity, the Premium fare is strictly greater than the
Standard fare of the same distance. -/
theorem premium_gt_standard (id pickup dropoff id' pickup' dropoff' : String) (d : F64)
    (hnan : d ≠ F64.nan)
    (hfin : (StandardRide.new id pickup dropoff d).calculateFare.getFare ≠ F64.inf false) :
    F64.lt (StandardRide.new id pickup dropoff d).calculateFare.getFare
      (PremiumRide.new id' pickup' dropoff' d).calculateFare.getFare = true := by
  have hfin' : F64.mul d (F64.ofDecimal 150 2) ≠ F64.inf false := hfin
  show F64.lt (F64.mul d (F64.ofDecimal 150 2))
    (F64.max (F64.mul d (F64.ofDecimal 300 2)) (F64.ofDecimal 100 1)) = true
  cases d with
  | nan => exact absurd rfl hnan
  | inf s =>
    cases s with
    | false => exact absurd (by decide) hfin'
    | true => decide
  | fin s m e =>
    cases s with
    | true =>
      have hp : F64.lt (F64.mul (F64.fin true m e) (F64.ofDecimal 300 2)) (F64.ofDecimal 100 1)
          = true := by
        apply lt_ten_of_negative
        rcases premium_product_cases true m e with h | ⟨m', e', _, h, _⟩
        · exact Or.inl h
        · exact Or.inr ⟨m', e', h⟩
      rw [F64.max, if_pos hp]
      apply lt_ten_of_negative
      rcases standard_product_cases true m e with h | ⟨m', e', _, h, _⟩
      · exact Or.inl h
      · exact Or.inr ⟨m', e', h⟩
    | false =>
      rcases standard_product_cases false m e with h | ⟨mx, ex, Wx, hx, hx1, hx2, hx3⟩
      · exact absurd h hfin'
      · rw [hx]
        have hT := ten_scaled_large 1025
        rcases premium_product_cases false m e with h | ⟨my, ey, Wy, hy, hy1, hy2, hy3⟩
        · rw [h]; rfl
        · rw [hy, check_literals.2.2.1, F64.max]
          by_cases hlt : F64.lt (F64.fin false my ey) (F64.fin false (5 * 2 ^ 50) 1025) = true
          · rw [if_pos hlt]
            simp only [F64.lt, F64.scaled, decide_eq_true_eq] at hlt ⊢
            generalize (5 * 2 ^ 50) <<< 1025 = T at hT hlt ⊢
            generalize m <<< e = M at hx1 hx2 hx3 hy1 hy2 hy3
            simp only [Nat.shiftLeft_eq] at hlt ⊢
            generalize mx * 2 ^ ex = vx at hx1 hx2 hlt ⊢
            generalize my * 2 ^ ey = vy at hy1 hy2 hlt ⊢
            omega
          · rw [if_neg hlt]
            simp only [F64.lt, F64.scaled, decide_eq_true_eq] at hlt ⊢
            generalize (5 * 2 ^ 50) <<< 1025 = T at hT hlt ⊢
            generalize m <<< e = M at hx1 hx2 hx3 hy1 hy2 hy3
            simp only [Nat.shiftLeft_eq] at hlt ⊢
            generalize mx * 2 ^ ex = vx at hx1 hx2 hlt ⊢
            generalize my * 2 ^ ey = vy at hy1 hy2 hlt ⊢
            omega


/-- Counterexample to C18: at the largest finite distance both fares are
+infinity, so the Premium fare is not strictly greater. -/
theorem premium_not_gt_standard_at_huge :
    (StandardRide.new "S1001" "123 Main St" "456 Oak Ave"
        (F64.fin false (2 ^ 53 - 1) 2045)).calculateFare.getFare = F64.inf false
    ∧ (PremiumRide.new "P1002" "789 Pine Ln" "321 Maple Dr"
        (F64.fin false (2 ^ 53 - 1) 2045)).calculateFare.getFare = F64.inf false
    ∧ F64.lt
        (StandardRide.new "S1001" "123 Main St" "456 Oak Ave"
          (F64.fin false (2 ^ 53 - 1) 2045)).calculateFare.getFare
        (PremiumRide.new "P1002" "789 Pine Ln" "321 Maple Dr"
          (F64.fin false (2 ^ 53 - 1) 2045)).calculateFare.getFare = false := by
  decide

/-- Witness of C18 (amended): distance 5.0 gives 7.50 < 15.00. -/
theorem premium_gt_standard_witness :
    F64.ofDecimal 50 1 ≠ F64.nan
    ∧ (StandardRide.new "S1001" "123 Main St" "456 Oak Ave"
        (F64.ofDecimal 50 1)).calculateFare.getFare ≠ F64.inf false
    ∧ F64.lt
        (StandardRide.new "S1001" "123 Main St" "456 Oak Ave"
          (F64.ofDecimal 50 1)).calculateFare.getFare
        (PremiumRide.new "P1002" "789 Pine Ln" "321 Maple Dr"
          (F64.ofDecimal 50 1)).calculateFare.getFare = true :=
  ⟨by decide, by decide,
   premium_gt_standard "S1001" "123 Main St" "456 Oak Ave" "P1002" "789 Pine Ln" "321 Maple Dr"
     (F64.ofDecimal 50 1) (by decide) (by decide)⟩

/-- The product of a number by `3.00` is a number. -/
theorem premium_product_ne_nan (d : F64) (hnan : d ≠ F64.nan) :
    F64.mul d (F64.ofDecimal 300 2) ≠ F64.nan := by
  cases d with
  | nan => exact absurd rfl hnan
  | inf s => cases s <;> decide
  | fin s m e =>
    rcases premium_product_cases s m e with h | ⟨m', e', _, h, _⟩ <;> rw [h] <;> simp

/-- Counterexample to C11: a NaN distance gives a NaN Premium fare, which is not
at least 10.00; and the Standard fare of the most negative distance,
-infinity, is not below the amount -infinity. -/
theorem premium_floor_fails_on_nan :
    (PremiumRide.new "P1002" "789 Pine Ln" "321 Maple Dr" F64.nan).calculateFare.getFare
        = F64.nan
    ∧ F64.le (F64.ofDecimal 1000 2)
        (PremiumRide.new "P1002" "789 Pine Ln" "321 Maple Dr" F64.nan).calculateFare.getFare
        = false
    ∧ F64.lt
        (StandardRide.new "S1001" "123 Main St" "456 Oak Ave"
          (F64.fin true (2 ^ 53 - 1) 2045)).calculateFare.getFare
        (F64.inf true) = false := by
  decide

/-- C11 (amended): for every distance other than a NaN the Premium fare is at
least 10.00; for every distance the Premium fare equals 10.00 exactly when
`d * 3.00 <= 10.00`; Standard has no floor: for every amount other than a NaN
and -infinity some distance has a Standard fare below it, and distance 0.0 gives
fare 0.0. -/
theorem premium_floor (id pickup dropoff : String) :
    (∀ d : F64, d ≠ F64.nan →
      F64.le (F64.ofDecimal 1000 2)
        (PremiumRide.new id pickup dropoff d).calculateFare.getFare = true)
    ∧ (∀ d : F64,
        F64.eq (PremiumRide.new id pickup dropoff d).calculateFare.getFare
            (F64.ofDecimal 1000 2) = true
          ↔ F64.le (F64.mul d (F64.ofDecimal 300 2)) (F64.ofDecimal 1000 2) = true)
    ∧ (∀ amount : F64, amount ≠ F64.nan → amount ≠ F64.inf true →
        ∃ d : F64,
          F64.lt (StandardRide.new id pickup dropoff d).calculateFare.getFare amount = true)
    ∧ (StandardRide.new id pickup dropoff (F64.ofDecimal 0 1)).calculateFare.getFare
        = F64.ofDecimal 0 1 := by
  have hten : F64.ofDecimal 1000 2 = F64.fin false (5 * 2 ^ 50) 1025 := by decide
  have hmin : PremiumRide.MINIMUM_FARE = F64.fin false (5 * 2 ^ 50) 1025 := by decide
  have hfare : ∀ d : F64, (PremiumRide.new id pickup dropoff d).calculateFare.getFare
      = F64.max (F64.mul d (F64.ofDecimal 300 2)) (F64.fin false (5 * 2 ^ 50) 1025) := by
    intro d
    rw [← hmin]
    rfl
  refine ⟨?_, ?_, ?_, ?_⟩
  · intro d hd
    rw [hfare, hten, F64.max]
    have hp := premium_product_ne_nan d hd
    generalize F64.mul d (F64.ofDecimal 300 2) = x at hp
    by_cases hlt : F64.lt x (F64.fin false (5 * 2 ^ 50) 1025) = true
    · rw [if_pos hlt]
      simp [F64.le]
    · rw [if_neg hlt]
      cases x with
      | nan => exact absurd rfl hp
      | inf s => cases s <;> simp_all [F64.lt, F64.le]
      | fin s m e =>
        simp only [F64.lt, F64.le, decide_eq_true_eq] at hlt ⊢
        omega
  · intro d
    rw [hfare, hten, F64.max]
    generalize F64.mul d (F64.ofDecimal 300 2) = x
    by_cases hlt : F64.lt x (F64.fin false (5 * 2 ^ 50) 1025) = true
    · rw [if_pos hlt]
      cases x with
      | nan => simp [F64.lt] at hlt
      | inf s => cases s <;> simp_all [F64.lt, F64.le, F64.eq]
      | fin s m e =>
        simp only [F64.lt, F64.le, F64.eq, decide_eq_true_eq] at hlt ⊢
        constructor
        · intro _; omega
        · intro _; trivial
    · rw [if_neg hlt]
      cases x with
      | nan => simp [F64.le, F64.eq]
      | inf s => cases s <;> simp_all [F64.lt, F64.le, F64.eq]
      | fin s m e =>
        simp only [F64.lt, F64.le, F64.eq, decide_eq_true_eq] at hlt ⊢
        constructor
        · intro h; omega
        · intro h; omega
  · intro amount h1 h2
    refine ⟨F64.fin true (2 ^ 53 - 1) 2045, ?_⟩
    have hs : (StandardRide.new id pickup dropoff (F64.fin true (2 ^ 53 - 1) 2045)).calculateFare.getFare
        = F64.inf true := by
      show F64.mul (F64.fin true (2 ^ 53 - 1) 2045) (F64.ofDecimal 150 2) = F64.inf true
      decide
    rw [hs]
    cases amount with
    | nan => exact absurd rfl h1
    | inf s =>
      cases s with
      | true => exact absurd rfl h2
      | false => rfl
    | fin s m e => rfl
  · show F64.mul (F64.ofDecimal 0 1) (F64.ofDecimal 150 2) = F64.ofDecimal 0 1
    decide


/-- Witness of C11 (amended): distance 1.0 gives the floor 10.00, and the amount
10.00 has a Standard fare below it. -/
theorem premium_floor_witness :
    F64.ofDecimal 10 1 ≠ F64.nan
    ∧ F64.le (F64.ofDecimal 1000 2)
        (PremiumRide.new "P1002" "789 Pine Ln" "321 Maple Dr"
          (F64.ofDecimal 10 1)).calculateFare.getFare = true
    ∧ F64.ofDecimal 1000 2 ≠ F64.nan
    ∧ F64.ofDecimal 1000 2 ≠ F64.inf true
    ∧ ∃ d : F64,
        F64.lt (StandardRide.new "P1002" "789 Pine Ln" "321 Maple Dr" d).calculateFare.getFare
          (F64.ofDecimal 1000 2) = true :=
  ⟨by decide,
   (premium_floor "P1002" "789 Pine Ln" "321 Maple Dr").1 (F64.ofDecimal 10 1) (by decide),
   by decide, by decide,
   (premium_floor "P1002" "789 Pine Ln" "321 Maple Dr").2.2.1 (F64.ofDecimal 1000 2)
     (by decide) (by decide)⟩

/-- The Standard fare of a negative distance is negative. -/
theorem standard_product_negative (d : F64) (hneg : F64.lt d (F64.fin false 0 0) = true) :
    F64.lt (F64.mul d (F64.ofDecimal 150 2)) (F64.fin false 0 0) = true := by
  cases d with
  | nan => simp [F64.lt] at hneg
  | inf s =>
    cases s with
    | false => simp [F64.lt] at hneg
    | true => decide
  | fin s m e =>
    cases s with
    | false =>
      simp only [F64.lt, F64.scaled, decide_eq_true_eq, Nat.zero_shiftLeft] at hneg
      generalize m <<< e = M at hneg
      omega
    | true =>
      simp only [F64.lt, F64.scaled, decide_eq_true_eq, Nat.zero_shiftLeft] at hneg
      rcases standard_product_cases true m e with h | ⟨m', e', W, h, h1, _, h3⟩
      · rw [h]; rfl
      · rw [h]
        simp only [F64.lt, F64.scaled, decide_eq_true_eq, Nat.zero_shiftLeft, Nat.shiftLeft_eq]
        generalize m <<< e = M at hneg h1 h3
        generalize m' * 2 ^ e' = v at h1 ⊢
        omega

/-- C12: no operation validates its input or fails.  Construction stores every
distance as given; `calculateFare` is total and succeeds on every live ride; for
a Standard ride of negative distance `d` it stores `d * 1.50`, which is
negative; `addRide` and `requestRide` succeed for every reference. -/
theorem no_validation (id pickup dropoff : String) (d : F64) :
    (StandardRide.new id pickup dropoff d).distance = d
    ∧ (PremiumRide.new id pickup dropoff d).distance = d
    ∧ (F64.lt d (F64.ofDecimal 0 1) = true →
        (StandardRide.new id pickup dropoff d).calculateFare.getFare
            = F64.mul d (F64.ofDecimal 150 2)
        ∧ F64.lt (StandardRide.new id pickup dropoff d).calculateFare.getFare
            (F64.ofDecimal 0 1) = true)
    ∧ (∀ (h : Heap) (p : Ptr) (r : Ride), h[p]? = some r →
        Heap.calculateFare h p = some (h.set p r.calculateFare))
    ∧ (∀ (w : World) (p : Ptr),
        step w (.addRide p) = some { w with driver1 := w.driver1.addRide p }
        ∧ step w (.requestRide p) = some { w with rider1 := (w.rider1.requestRide p).1 }) := by
  refine ⟨rfl, rfl, ?_, ?_, fun _ _ => ⟨rfl, rfl⟩⟩
  · intro hneg
    refine ⟨rfl, ?_⟩
    rw [zero_literal_eq] at hneg ⊢
    exact standard_product_negative d hneg
  · intro h p r hr
    simp [Heap.calculateFare, hr]

/-- Witness of C12: a Standard ride of distance -2.0 gets the fare -3.0. -/
theorem no_validation_witness :
    F64.lt (F64.fin true (2 ^ 52) 1023) (F64.ofDecimal 0 1) = true
    ∧ (StandardRide.new "S1001" "123 Main St" "456 Oak Ave"
        (F64.fin true (2 ^ 52) 1023)).calculateFare.getFare = F64.fin true (3 * 2 ^ 51) 1023
    ∧ F64.lt (StandardRide.new "S1001" "123 Main St" "456 Oak Ave"
        (F64.fin true (2 ^ 52) 1023)).calculateFare.getFare (F64.ofDecimal 0 1) = true :=
  ⟨by decide,
   ((no_validation "S1001" "123 Main St" "456 Oak Ave" (F64.fin true (2 ^ 52) 1023)).2.2.1
      (by decide)).1.trans (by decide),
   ((no_validation "S1001" "123 Main St" "456 Oak Ave" (F64.fin true (2 ^ 52) 1023)).2.2.1
      (by decide)).2⟩


/-- One call keeps the earlier history of the rider as the front of the new one. -/
theorem step_history (w w' : World) (op : Op) (hs : step w op = some w') :
    ∃ later : List Ptr, w'.rider1.requestedRides = w.rider1.requestedRides ++ later := by
  cases op with
  | calculateFare q =>
    simp only [step, Option.map_eq_some'] at hs
    obtain ⟨_, _, rfl⟩ := hs
    exact ⟨[], by simp⟩
  | rideDetails q =>
    simp only [step, Option.map_eq_some'] at hs
    obtain ⟨_, _, rfl⟩ := hs
    exact ⟨[], by simp⟩
  | addRide q =>
    simp only [step, Option.some.injEq] at hs
    subst hs
    exact ⟨[], by simp⟩
  | getDriverInfo =>
    simp only [step, Option.map_eq_some'] at hs
    obtain ⟨_, _, rfl⟩ := hs
    exact ⟨[], by simp⟩
  | requestRide q =>
    simp only [step, Option.some.injEq] at hs
    subst hs
    exact ⟨[q], rfl⟩
  | viewRides =>
    simp only [step, Option.map_eq_some'] at hs
    obtain ⟨_, _, rfl⟩ := hs
    exact ⟨[], by simp⟩

/-- A sequence of calls keeps the earlier history as the front of the new one. -/
theorem run_history (ops : List Op) :
    ∀ w w' : World, run w ops = some w' →
      ∃ later : List Ptr, w'.rider1.requestedRides = w.rider1.requestedRides ++ later := by
  induction ops with
  | nil =>
    intro w w' hrun
    simp [run] at hrun
    exact ⟨[], by simp [hrun]⟩
  | cons op ops ih =>
    intro w w' hrun
    simp only [run, List.foldlM_cons, Option.bind_eq_bind, Option.bind_eq_some] at hrun
    obtain ⟨w1, hstep, hrun1⟩ := hrun
    obtain ⟨l1, h1⟩ := step_history w w1 op hstep
    obtain ⟨l2, h2⟩ := ih w1 w' hrun1
    exact ⟨l1 ++ l2, by rw [h2, h1, List.append_assoc]⟩

/-- A call other than `calculateFare` leaves every ride object as it is. -/
theorem step_heap (w w' : World) (op : Op) (hop : ∀ p, op ≠ Op.calculateFare p)
    (hs : step w op = some w') : w'.heap = w.heap := by
  cases op with
  | calculateFare q => exact absurd rfl (hop q)
  | rideDetails q =>
    simp only [step, Option.map_eq_some'] at hs
    obtain ⟨_, _, rfl⟩ := hs
    rfl
  | addRide q =>
    simp only [step, Option.some.injEq] at hs
    subst hs
    rfl
  | getDriverInfo =>
    simp only [step, Option.map_eq_some'] at hs
    obtain ⟨_, _, rfl⟩ := hs
    rfl
  | requestRide q =>
    simp only [step, Option.some.injEq] at hs
    subst hs
    rfl
  | viewRides =>
    simp only [step, Option.map_eq_some'] at hs
    obtain ⟨_, _, rfl⟩ := hs
    rfl

/-- A sequence of calls without `calculateFare` leaves every ride object as it is. -/
theorem run_heap (ops : List Op) (hops : ∀ p, Op.calculateFare p ∉ ops) :
    ∀ w w' : World, run w ops = some w' → w'.heap = w.heap := by
  induction ops with
  | nil =>
    intro w w' hrun
    simp [run] at hrun
    rw [hrun]
  | cons op ops ih =>
    intro w w' hrun
    simp only [run, List.foldlM_cons, Option.bind_eq_bind, Option.bind_eq_some] at hrun
    obtain ⟨w1, hstep, hrun1⟩ := hrun
    have h1 : w1.heap = w.heap :=
      step_heap w w1 op (fun p e => hops p (e ▸ List.mem_cons_self _ _)) hstep
    have h2 : w'.heap = w1.heap :=
      ih (fun p e => hops p (List.mem_cons_of_mem _ e)) w1 w' hrun1
    rw [h2, h1]


/-! ## Frame properties -/

/-- C13: the rider history is append-only.  After `requestRide(r)` the history is
the previous history followed by `r`, every earlier entry keeps its index,
`viewRides` leaves the rider as it is, and after any sequence of calls the
earlier history is the front of the later one. -/
theorem history_append_only (r : Rider) (ride : Ptr) :
    (r.requestRide ride).1.requestedRides = r.requestedRides ++ [ride]
    ∧ (∀ i : Nat, i < r.requestedRides.length →
        (r.requestRide ride).1.requestedRides[i]? = r.requestedRides[i]?)
    ∧ (∀ ps : List Ptr, (r.requestAll ps).requestedRides = r.requestedRides ++ ps)
    ∧ (∀ w w' : World, step w .viewRides = some w' → w'.rider1 = w.rider1)
    ∧ (∀ (w w' : World) (ops : List Op), run w ops = some w' →
        ∃ later : List Ptr, w'.rider1.requestedRides = w.rider1.requestedRides ++ later) := by
  refine ⟨rfl, ?_, fun ps => requestAll_rides ps r, ?_, fun w w' ops => run_history ops w w'⟩
  · intro i hi
    simp [Rider.requestRide, List.getElem?_append_left hi]
  · intro w w' hs
    simp only [step, Option.map_eq_some'] at hs
    obtain ⟨_, _, rfl⟩ := hs
    rfl

/-- Witness of C13: registering, reporting and registering again keeps the first
entry in front. -/
theorem history_append_only_witness :
    0 < (sampleRider.requestRide 0).1.requestedRides.length
    ∧ ((sampleRider.requestRide 0).1.requestRide 1).1.requestedRides[0]?
        = (sampleRider.requestRide 0).1.requestedRides[0]?
    ∧ ∃ w' : World,
        run sampleWorld [Op.requestRide 0, Op.viewRides, Op.requestRide 0] = some w'
        ∧ ∃ later : List Ptr,
            w'.rider1.requestedRides = sampleWorld.rider1.requestedRides ++ later :=
  ⟨by decide,
   (history_append_only (sampleRider.requestRide 0).1 1).2.1 0 (by decide),
   _, rfl,
   (history_append_only sampleRider 0).2.2.2.2 sampleWorld _
     [Op.requestRide 0, Op.viewRides, Op.requestRide 0] rfl⟩

/-- C14: Driver and Rider never mutate a ride.  `addRide`, `getDriverInfo`,
`requestRide` and `viewRides` leave every ride object (identifier, locations,
distance, fare) as it is; `addRide` leaves the rider as it is and `requestRide`
leaves the driver as it is; so does any sequence of calls without
`calculateFare` for the rides. -/
theorem roles_leave_rides_unchanged (w w' : World) (ride : Ptr) :
    (step w (.addRide ride) = some w' → w'.heap = w.heap ∧ w'.rider1 = w.rider1)
    ∧ (step w .getDriverInfo = some w' →
        w'.heap = w.heap ∧ w'.driver1 = w.driver1 ∧ w'.rider1 = w.rider1)
    ∧ (step w (.requestRide ride) = some w' → w'.heap = w.heap ∧ w'.driver1 = w.driver1)
    ∧ (step w .viewRides = some w' →
        w'.heap = w.heap ∧ w'.driver1 = w.driver1 ∧ w'.rider1 = w.rider1)
    ∧ (∀ ops : List Op, (∀ p, Op.calculateFare p ∉ ops) → run w ops = some w' →
        w'.heap = w.heap) := by
  refine ⟨?_, ?_, ?_, ?_, fun ops hops hrun => run_heap ops hops w w' hrun⟩
  · intro hs
    simp only [step, Option.some.injEq] at hs
    subst hs
    exact ⟨rfl, rfl⟩
  · intro hs
    simp only [step, Option.map_eq_some'] at hs
    obtain ⟨_, _, rfl⟩ := hs
    exact ⟨rfl, rfl, rfl⟩
  · intro hs
    simp only [step, Option.some.injEq] at hs
    subst hs
    exact ⟨rfl, rfl⟩
  · intro hs
    simp only [step, Option.map_eq_some'] at hs
    obtain ⟨_, _, rfl⟩ := hs
    exact ⟨rfl, rfl, rfl⟩

/-- Witness of C14: `addRide` on the sample world changes neither the rides nor
the rider. -/
theorem roles_leave_rides_unchanged_witness :
    step sampleWorld (.addRide 0)
        = some { sampleWorld with driver1 := sampleWorld.driver1.addRide 0 }
    ∧ ({ sampleWorld with driver1 := sampleWorld.driver1.addRide 0 } : World).heap
        = sampleWorld.heap
    ∧ ({ sampleWorld with driver1 := sampleWorld.driver1.addRide 0 } : World).rider1
        = sampleWorld.rider1 :=
  ⟨rfl,
   ((roles_leave_rides_unchanged sampleWorld
      { sampleWorld with driver1 := sampleWorld.driver1.addRide 0 } 0).1 rfl).1,
   ((roles_leave_rides_unchanged sampleWorld
      { sampleWorld with driver1 := sampleWorld.driver1.addRide 0 } 0).1 rfl).2⟩

/-- C15: `calculateFare` mutates only the fare.  For a ride of either variant the
variant, identifier, pickup location, dropoff location and distance after
`calculateFare` are those given at construction, and a call through a pointer
changes no other ride, no driver and no rider. -/
theorem calculateFare_changes_fare_only (r : Ride) :
    r.calculateFare.variant = r.variant
    ∧ r.calculateFare.getID = r.getID
    ∧ r.calculateFare.pickupLocation = r.pickupLocation
    ∧ r.calculateFare.dropoffLocation = r.dropoffLocation
    ∧ r.calculateFare.distance = r.distance
    ∧ (∀ (v : Variant) (id pickup dropoff : String) (d : F64),
        (Ride.new v id pickup dropoff d).calculateFare
          = { variant := v, rideID := id, pickupLocation := pickup, dropoffLocation := dropoff,
              distance := d, fare := (Ride.new v id pickup dropoff d).calculateFare.getFare })
    ∧ (∀ (h h' : Heap) (p : Ptr), Heap.calculateFare h p = some h' →
        h'.length = h.length ∧ ∀ q : Nat, q ≠ p → h'[q]? = h[q]?)
    ∧ (∀ (w w' : World) (p : Ptr), step w (.calculateFare p) = some w' →
        w'.driver1 = w.driver1 ∧ w'.rider1 = w.rider1 ∧ w'.out = w.out) := by
  have hv : ∀ x : Ride, x.calculateFare = { x with fare := x.calculateFare.getFare } := by
    intro x
    obtain ⟨v, _, _, _, _, _⟩ := x
    cases v <;> rfl
  refine ⟨by rw [hv r], by rw [hv r]; rfl, by rw [hv r], by rw [hv r], by rw [hv r], ?_, ?_, ?_⟩
  · intro v id pickup dropoff d
    cases v <;> rfl
  · intro h h' p hc
    cases hr : h[p]? with
    | none => simp [Heap.calculateFare, hr] at hc
    | some x =>
      simp only [Heap.calculateFare, hr, Option.some.injEq] at hc
      subst hc
      refine ⟨List.length_set _ _ _, ?_⟩
      intro q hq
      exact List.getElem?_set_ne (Ne.symm hq)
  · intro w w' p hs
    simp only [step, Option.map_eq_some'] at hs
    obtain ⟨_, _, rfl⟩ := hs
    exact ⟨rfl, rfl, rfl⟩

/-- Witness of C15: computing the fare of the ride at address 0 leaves the ride
at address 1 as it is. -/
theorem calculateFare_changes_fare_only_witness :
    Heap.calculateFare [sampleRide, samplePremium] 0
        = some [sampleRide.calculateFare, samplePremium]
    ∧ [sampleRide.calculateFare, samplePremium].length = [sampleRide, samplePremium].length
    ∧ (1 : Nat) ≠ 0
    ∧ [sampleRide.calculateFare, samplePremium][1]? = [sampleRide, samplePremium][1]? :=
  ⟨rfl,
   ((calculateFare_changes_fare_only sampleRide).2.2.2.2.2.2.1 [sampleRide, samplePremium]
      [sampleRide.calculateFare, samplePremium] 0 rfl).1,
   by decide,
   ((calculateFare_changes_fare_only sampleRide).2.2.2.2.2.2.1 [sampleRide, samplePremium]
      [sampleRide.calculateFare, samplePremium] 0 rfl).2 1 (by decide)⟩

/-- C17: `calculateFare` is idempotent.  For a ride of either variant, calling
it twice, or any number of times from one on, leaves the ride in the state one
call leaves it in, also through a pointer. -/
theorem calculateFare_idempotent (r : Ride) :
    r.calculateFare.calculateFare = r.calculateFare
    ∧ (∀ n : Nat, Ride.calculateFare^[n + 1] r = r.calculateFare)
    ∧ (∀ (h h' : Heap) (p : Ptr), Heap.calculateFare h p = some h' →
        Heap.calculateFare h' p = some h') := by
  have h2 : ∀ x : Ride, x.calculateFare.calculateFare = x.calculateFare := by
    intro x
    obtain ⟨v, _, _, _, _, _⟩ := x
    cases v <;> rfl
  refine ⟨h2 r, ?_, ?_⟩
  · intro n
    induction n with
    | zero => rfl
    | succ k ih => rw [Function.iterate_succ_apply', ih, h2]
  · intro h h' p hc
    cases hr : h[p]? with
    | none => simp [Heap.calculateFare, hr] at hc
    | some x =>
      simp only [Heap.calculateFare, hr, Option.some.injEq] at hc
      subst hc
      have hp : p < h.length := by
        by_contra hlt
        rw [List.getElem?_eq_none (Nat.le_of_not_lt hlt)] at hr
        cases hr
      simp [Heap.calculateFare, List.getElem?_set_self hp, h2]

/-- Witness of C17: a second call through the pointer leaves the heap as the
first call left it. -/
theorem calculateFare_idempotent_witness :
    Heap.calculateFare [samplePremium] 0 = some [samplePremium.calculateFare]
    ∧ Heap.calculateFare [samplePremium.calculateFare] 0 = some [samplePremium.calculateFare] :=
  ⟨rfl,
   (calculateFare_idempotent samplePremium).2.2 [samplePremium] [samplePremium.calculateFare] 0
     rfl⟩


/-! ## Ride reports -/

/-- C16, at the call of `main`: the bodies of lines 47-50 and 66-70 do print the
variant header (and the Premium line), but a call through `Ride*` runs the base
body: for the Standard ride at address 0 the text starts with `  Ride ID: `, not
with the header, and for the Premium ride at address 1 it does not end with the
premium line; so the first item `main` prints after its banner is `  Ride ID: `. -/
theorem rideDetails_through_base_pointer :
    StandardRide.rideDetails sampleRide.calculateFare
        = .text "--- Standard Ride ---\n" :: Ride.rideDetails sampleRide.calculateFare
    ∧ PremiumRide.rideDetails samplePremium.calculateFare
        = .text "--- Premium Ride ---\n" :: Ride.rideDetails samplePremium.calculateFare
            ++ [.text "  (Includes premium service)\n"]
    ∧ Heap.rideDetails sampleHeap 0 = some (Ride.rideDetails sampleRide.calculateFare)
    ∧ (Ride.rideDetails sampleRide.calculateFare).head? = some (.text "  Ride ID: ")
    ∧ Heap.rideDetails sampleHeap 0 ≠ some (StandardRide.rideDetails sampleRide.calculateFare)
    ∧ Heap.rideDetails sampleHeap 1 = some (Ride.rideDetails samplePremium.calculateFare)
    ∧ (Ride.rideDetails samplePremium.calculateFare).getLast? = some (.text "\n")
    ∧ Heap.rideDetails sampleHeap 1 ≠ some (PremiumRide.rideDetails samplePremium.calculateFare)
    ∧ main.map (fun w => w.out.take 3)
        = some [.text "--- Processing All Rides Polymorphically ---\n", .endl,
                .text "  Ride ID: "] := by
  decide

end RideShare
